import Mathlib

/-!
Shallow embedding of the halimath/healthcheck Go package.

The repository ships two revisions of the library; the current one (the
revision containing Handler.ExecuteReadyChecks, the ReadynessTimeout
option and DefaultReadynessCheckTimeout, found in the source tree as the
last document of src/example/main.go, lines 163-429) is the revision the
specification describes, and it is the one embedded here.  Line numbers
in doc comments refer to that file.

Modelling conventions:
* Go error values are the inductive GoErr; fmt.Errorf with a leading %w
  verb is GoErr.wrapf, errors.New is GoErr.new, and errors.Is is the
  boolean errorsIs.
* A context.Context is modelled by its effective absolute deadline
  (Ctx); context.WithTimeout is Ctx.withTimeout.
* A registered check is modelled by its observable behaviour for one
  evaluation: a completion duration and an intrinsic result (CheckSpec).
  Checks are modelled as cancellation-respecting, as the package
  documentation expects ("Any non-nil return value is considered a check
  failure incl. context deadlines"): a check whose completion time lies
  past the context deadline returns ctx.Err(), i.e. deadline exceeded.
* golang.org/x/sync/errgroup is modelled by egWait: the error returned
  by Wait is the first (earliest completion time) non-nil error of any
  launched goroutine.
* The ErrorLogger callback is modelled by a presence flag on the
  Handler; the arguments it is invoked with are recorded explicitly in
  the evaluation result (ExecResult.logged).
* http.ServeMux is modelled as a list of (pattern, route) pairs; the
  patterns registered by this package ("/livez", "/readyz", "/infoz")
  contain no method and no trailing slash, so the mux matches them
  against the request path only, exactly, for every HTTP method, and an
  unmatched path yields 404.
-/

namespace Healthcheck

/-- Go error values as built by this package: errors.New sentinels,
fmt.Errorf("%w...", e, ...) wrapping (the suffix is the formatted text
after the wrapped error), and context.DeadlineExceeded. -/
inductive GoErr where
  | new : String → GoErr
  | wrapf : GoErr → String → GoErr
  | deadlineExceeded : GoErr
deriving DecidableEq, Repr

/-- The message of a Go error value (Error()). -/
def GoErr.msg : GoErr → String
  | .new m => m
  | .wrapf e suffix => e.msg ++ suffix
  | .deadlineExceeded => "context deadline exceeded"

/-- errors.Is: walks the unwrap chain looking for target. -/
def errorsIs (e target : GoErr) : Bool :=
  e = target ||
    match e with
    | .wrapf inner _ => errorsIs inner target
    | _ => false

/-- errorsIs lifted to an optional error; a missing error vacuously
satisfies it. -/
def errorsIsOpt (o : Option GoErr) (target : GoErr) : Bool :=
  match o with
  | none => true
  | some e => errorsIs e target

/-- var ErrURLCheckFailed = errors.New("URL check failed")  (line 203). -/
def ErrURLCheckFailed : GoErr := .new "URL check failed"

/-- var ErrPingCheckFailed = errors.New("ping check failed")  (line 243). -/
def ErrPingCheckFailed : GoErr := .new "ping check failed"

/-- An HTTP response as far as CheckHTTPResponse inspects it. -/
structure HttpResponse where
  statusCode : Nat
deriving DecidableEq, Repr

/-- The behaviour of the HTTP stack for one invocation of the check built
by CheckHTTPResponse: whether http.NewRequestWithContext fails (and with
which error), and the outcome of client.Do. -/
structure HttpEnv where
  newRequest : Option GoErr
  doResult : Except GoErr HttpResponse
deriving Repr

/-- CheckHTTPResponse (lines 216-241): build the request; on failure wrap
ErrURLCheckFailed; issue it; on failure wrap ErrURLCheckFailed; report an
ErrURLCheckFailed-wrapping error when the status code is >= 400
(http.StatusBadRequest); otherwise succeed.  none models a nil error. -/
def checkHTTPResponse (method url : String) (env : HttpEnv) : Option GoErr :=
  match env.newRequest with
  | some err =>
    some (GoErr.wrapf ErrURLCheckFailed
      (": failed to create http request for " ++ method ++ " " ++ url ++ ": " ++ err.msg))
  | none =>
    match env.doResult with
    | .error err =>
      some (GoErr.wrapf ErrURLCheckFailed
        (": failed to issue http request for " ++ method ++ " " ++ url ++ ": " ++ err.msg))
    | .ok res =>
      if res.statusCode ≥ 400 then
        some (GoErr.wrapf ErrURLCheckFailed
          (": got failing status code for " ++ method ++ " " ++ url ++ ": " ++ toString res.statusCode))
      else
        none

/-- CheckURL (lines 208-210): CheckHTTPResponse with method GET and the
default client. -/
def checkURL (url : String) (env : HttpEnv) : Option GoErr :=
  checkHTTPResponse "GET" url env

/-- CheckPing (lines 256-263): the pinger is modelled by the result of
its PingContext call; a non-nil result is wrapped with
ErrPingCheckFailed via fmt.Errorf("%w: %s", ErrPingCheckFailed, err). -/
def checkPing (pingResult : Option GoErr) : Option GoErr :=
  match pingResult with
  | some err => some (GoErr.wrapf ErrPingCheckFailed (": " ++ err.msg))
  | none => none

/-- A context, modelled by its effective absolute deadline (none = no
deadline). -/
structure Ctx where
  deadline : Option Nat
deriving DecidableEq, Repr

/-- context.WithTimeout(ctx, t) called at absolute time now: the child
deadline is now + t, except that a parent deadline that is already
earlier stays in effect, i.e. the effective deadline is
min(parent deadline, now + t). -/
def Ctx.withTimeout (ctx : Ctx) (now t : Nat) : Ctx :=
  ⟨some (match ctx.deadline with
         | none => now + t
         | some d => min d (now + t))⟩

/-- The observable behaviour of one registered check for one evaluation:
it completes dur time units after being started and returns result,
unless the context deadline expires first, in which case it observes the
cancellation and returns the deadline-exceeded error at the deadline. -/
structure CheckSpec where
  dur : Nat
  result : Option GoErr
deriving DecidableEq, Repr

/-- Run one check, started at time now under context ctx.  Yields the
completion time and the returned error (none = nil). -/
def runCheck (ctx : Ctx) (now : Nat) (c : CheckSpec) : Nat × Option GoErr :=
  match ctx.deadline with
  | some d => if d < now + c.dur then (d, some GoErr.deadlineExceeded) else (now + c.dur, c.result)
  | none => (now + c.dur, c.result)

/-- Among the failures of one errgroup, the first to arrive: minimal
completion time, earliest launched on ties. -/
def firstFailure (f : Nat × GoErr) (fs : List (Nat × GoErr)) : Nat × GoErr :=
  fs.foldl (fun acc p => if p.1 < acc.1 then p else acc) f

/-- The error errgroup.Wait reports given the list of failures that
arrived: nil when there is none, otherwise the first to arrive. -/
def egWaitAux : List (Nat × GoErr) → Option GoErr
  | [] => none
  | f :: fs => some (firstFailure f fs).2

/-- errgroup.Wait over the outcomes (completion time, returned error) of
all launched goroutines: nil when every goroutine returned nil,
otherwise the first non-nil error to arrive. -/
def egWait (outcomes : List (Nat × Option GoErr)) : Option GoErr :=
  egWaitAux (outcomes.filterMap (fun p => p.2.map (fun e => (p.1, e))))

/-- A JSON value, as produced by json.Marshal on the map[string]any
values this package builds (strings and string-keyed objects suffice). -/
inductive Json where
  | str : String → Json
  | obj : List (String × Json) → Json

/-- Assignment m[k] = v on a Go map modelled as an association list:
replace the binding when the key is present, otherwise add it. -/
def insertKV : List (String × Json) → String → Json → List (String × Json)
  | [], k, v => [(k, v)]
  | (k2, v2) :: tl, k, v =>
    if k2 = k then (k, v) :: tl else (k2, v2) :: insertKV tl k v

/-- Whether the association list binds key k. -/
def hasKey : List (String × Json) → String → Bool
  | [], _ => false
  | p :: tl, k => p.1 = k || hasKey tl k

/-- The build metadata debug.ReadBuildInfo returns when it succeeds:
the main module version and the build settings key/value pairs. -/
structure BuildInfo where
  version : String
  settings : List (String × String)

/-- The three handlers the mux can dispatch to. -/
inductive Route where
  | live
  | ready
  | info
deriving DecidableEq, Repr

/-- var LivePath = "/livez"  (line 276). -/
def livePath : String := "/livez"

/-- var ReadyPath = "/readyz"  (line 279). -/
def readyPath : String := "/readyz"

/-- var InfoPath = "/infoz"  (line 282). -/
def infoPath : String := "/infoz"

/-- var DefaultReadynessCheckTimeout = 10 * time.Second  (line 285); the
model measures time in seconds. -/
def defaultReadynessCheckTimeout : Nat := 10

/-- The Option functions this package exports (lines 288-304). -/
inductive HOption where
  | withErrorLogger
  | withReadynessTimeout : Nat → HOption
deriving DecidableEq, Repr

/-- The Handler struct (lines 306-315).  The ErrorLogger function field
is modelled by whether it is set (its invocations are recorded in
ExecResult.logged); the mux is modelled by the list of registered
(pattern, route) pairs; checks is the registry in insertion order;
infoPayload is none until EnableInfo stores the marshalled payload. -/
structure Handler where
  hasErrorLogger : Bool
  ReadynessTimeout : Nat
  checks : List CheckSpec
  routes : List (String × Route)
  infoPayload : Option Json

/-- Application of one Option to the Handler: WithErrorLogger sets the
ErrorLogger field (line 292-296), WithReadynessTimeout sets the
ReadynessTimeout field (line 300-304). -/
def applyOption (h : Handler) (o : HOption) : Handler :=
  match o with
  | .withErrorLogger => { h with hasErrorLogger := true }
  | .withReadynessTimeout t => { h with ReadynessTimeout := t }

/-- New (lines 320-336): start from a Handler with an empty mux and the
default readyness timeout, apply every option, then register the
liveness and readyness routes.  nil options are skipped by the loop, so
the model takes the non-nil options. -/
def new (opts : List HOption) : Handler :=
  let h : Handler :=
    { hasErrorLogger := false
      ReadynessTimeout := defaultReadynessCheckTimeout
      checks := []
      routes := []
      infoPayload := none }
  let h := opts.foldl applyOption h
  { h with routes := [(livePath, Route.live), (readyPath, Route.ready)] }

/-- AddCheck (lines 344-349): append c to the registry under the write
lock. -/
def addCheck (h : Handler) (c : CheckSpec) : Handler :=
  { h with checks := h.checks ++ [c] }

/-- AddCheckFunc (lines 339-341): wrap the bare function as a Check and
delegate to AddCheck. -/
def addCheckFunc (h : Handler) (c : CheckSpec) : Handler :=
  addCheck h c

/-- Registration of a whole list of checks, first to last. -/
def addChecks (h : Handler) (cs : List CheckSpec) : Handler :=
  cs.foldl addCheck h

/-- EnableInfo (lines 383-405): replace a nil map by an empty one (the
model input is already a list), merge in version and build_settings when
debug.ReadBuildInfo succeeds, marshal the payload (marshalling of these
values cannot fail) and register the info route. -/
def enableInfo (h : Handler) (infoData : List (String × Json)) (bi : Option BuildInfo) : Handler :=
  let data :=
    match bi with
    | some info =>
      let settings := info.settings.foldl (fun m s => insertKV m s.1 (Json.str s.2)) []
      insertKV (insertKV infoData "version" (Json.str info.version)) "build_settings" (Json.obj settings)
    | none => infoData
  { h with
    infoPayload := some (Json.obj data)
    routes := h.routes ++ [(infoPath, Route.info)] }

/-- The context the checks run under (lines 358-362): when
ReadynessTimeout > 0 the caller context is narrowed by
context.WithTimeout, otherwise it is used as is. -/
def boundedCtx (h : Handler) (ctx : Ctx) (now : Nat) : Ctx :=
  if 0 < h.ReadynessTimeout then ctx.withTimeout now h.ReadynessTimeout else ctx

/-- The observable outcome of one call to ExecuteReadyChecks: the error
it returns, the arguments the ErrorLogger was invoked with, and the
checks it launched. -/
structure ExecResult where
  err : Option GoErr
  logged : List GoErr
  ran : List CheckSpec

/-- ExecuteReadyChecks (lines 354-379): under the read lock, bound the
context, launch one goroutine per registered check, wait; on a non-nil
first error invoke the ErrorLogger (when set) with it and return it,
otherwise return nil. -/
def executeReadyChecks (h : Handler) (ctx : Ctx) (now : Nat) : ExecResult :=
  match egWait (h.checks.map (runCheck (boundedCtx h ctx now) now)) with
  | some err => ⟨some err, if h.hasErrorLogger then [err] else [], h.checks⟩
  | none => ⟨none, [], h.checks⟩

/-- Pattern lookup of the modelled mux: the registered patterns are
exact paths without a method, so matching is exact on the path and
ignores the request method. -/
def lookupRoute : List (String × Route) → String → Option Route
  | [], _ => none
  | (p, r) :: tl, path => if p = path then some r else lookupRoute tl path

/-- An HTTP response as far as this package produces one: the status
code and the optional JSON body. -/
structure Response where
  status : Nat
  body : Option Json

/-- handleLive (lines 412-414): 204 No Content, nothing else. -/
def handleLive (_h : Handler) : Response × List GoErr × List CheckSpec :=
  (⟨204, none⟩, [], [])

/-- handleReady (lines 416-422): run ExecuteReadyChecks with the request
context; 503 Service Unavailable on error, 204 No Content otherwise. -/
def handleReady (h : Handler) (ctx : Ctx) (now : Nat) : Response × List GoErr × List CheckSpec :=
  let r := executeReadyChecks h ctx now
  (⟨if r.err.isSome then 503 else 204, none⟩, r.logged, r.ran)

/-- handleInfo (lines 424-429): 200 OK with the stored payload. -/
def handleInfo (h : Handler) : Response × List GoErr × List CheckSpec :=
  (⟨200, h.infoPayload⟩, [], [])

/-- ServeHTTP (lines 408-410) dispatching through the mux: the matching
route handles the request; an unmatched path yields 404 Not Found.  The
method argument is ignored because every registered pattern carries no
method.  Besides the response, the dispatch yields the ErrorLogger
invocations and the list of checks that were executed. -/
def serveHTTP (h : Handler) (method path : String) (ctx : Ctx) (now : Nat) :
    Response × List GoErr × List CheckSpec :=
  match method, lookupRoute h.routes path with
  | _, some .live => handleLive h
  | _, some .ready => handleReady h ctx now
  | _, some .info => handleInfo h
  | _, none => (⟨404, none⟩, [], [])

/-!
Lock-discipline model for the registry's sync.RWMutex.  An evaluation
(ExecuteReadyChecks, lines 354-379) produces the event sequence RLock,
one run event per registered check (the goroutines and eg.Wait all
happen inside the critical section because RUnlock is deferred), RUnlock.
AddCheck (lines 344-349) produces Lock, append, Unlock.  A concurrent
execution is any interleaving of the two sequences that the RWMutex
semantics admits.
-/

/-- Lock-relevant events: reader lock and unlock, writer lock and
unlock, the execution of check number i, and the registry append. -/
inductive LockEv where
  | rlock
  | runlock
  | wlock
  | wunlock
  | runCheckEv : Nat → LockEv
  | append
deriving DecidableEq, Repr

/-- The state of a sync.RWMutex: how many readers hold it and whether a
writer holds it. -/
abbrev LockState := Nat × Bool

/-- One step of the RWMutex semantics: an event either fires from the
given state, yielding the next state, or cannot fire (none).  RLock
needs no writer; RUnlock needs a reader; Lock needs no reader and no
writer; Unlock needs the writer; running a check needs nothing; the
append needs the write lock to be held. -/
def lockStep : LockState → LockEv → Option LockState
  | (r, false), .rlock => some (r + 1, false)
  | (_, true), .rlock => none
  | (r + 1, w), .runlock => some (r, w)
  | (0, _), .runlock => none
  | (0, false), .wlock => some (0, true)
  | (_ + 1, _), .wlock => none
  | (_, true), .wlock => none
  | (r, true), .wunlock => some (r, false)
  | (_, false), .wunlock => none
  | s, .runCheckEv _ => some s
  | (r, true), .append => some (r, true)
  | (_, false), .append => none

/-- Run a whole event trace from a lock state; none when some event
cannot fire where it stands. -/
def runTrace : LockState → List LockEv → Option LockState
  | s, [] => some s
  | s, e :: tl =>
    match lockStep s e with
    | some s2 => runTrace s2 tl
    | none => none

/-- A trace is valid when it runs to completion from the free lock. -/
def validTrace (tr : List LockEv) : Bool :=
  (runTrace (0, false) tr).isSome

/-- The event trace of one call to ExecuteReadyChecks over a registry of
n checks: RLock, run every check, RUnlock (the unlock is deferred to the
very end, after eg.Wait). -/
def evalTrace (n : Nat) : List LockEv :=
  LockEv.rlock :: ((List.range n).map LockEv.runCheckEv ++ [LockEv.runlock])

/-- The event trace of one call to AddCheck: Lock, append, Unlock. -/
def addCheckTrace : List LockEv := [LockEv.wlock, LockEv.append, LockEv.wunlock]

/-- tr is an interleaving of two event sequences, each kept in order. -/
inductive Interleave : List LockEv → List LockEv → List LockEv → Prop where
  | nil : Interleave [] [] []
  | left {x : LockEv} {xs ys zs : List LockEv} :
      Interleave xs ys zs → Interleave (x :: xs) ys (x :: zs)
  | right {y : LockEv} {xs ys zs : List LockEv} :
      Interleave xs ys zs → Interleave xs (y :: ys) (y :: zs)

/-- After the evaluation's RLock has been seen: does an append land
before the evaluation's RUnlock? -/
def appendAfterRlock : List LockEv → Bool
  | [] => false
  | .runlock :: _ => false
  | .append :: _ => true
  | _ :: tl => appendAfterRlock tl

/-- Does an append land strictly inside the evaluation's read-locked
span, i.e. after its RLock and before its RUnlock? -/
def appendDuringEval : List LockEv → Bool
  | [] => false
  | .rlock :: tl => appendAfterRlock tl
  | _ :: tl => appendDuringEval tl

/-- Does every check-run event of the trace happen while no lock is held
by anyone?  This is the lock-free-execution reading of the claim that
the evaluation iterates a snapshot without holding a lock for the
duration of execution. -/
def checksRunUnlockedFrom : LockState → List LockEv → Bool
  | _, [] => true
  | s, e :: tl =>
    (match e with
     | LockEv.runCheckEv _ => decide (s.1 = 0 ∧ s.2 = false)
     | _ => true) &&
    (match lockStep s e with
     | some s2 => checksRunUnlockedFrom s2 tl
     | none => false)

/-- checksRunUnlockedFrom started at the free lock. -/
def checksRunUnlocked (tr : List LockEv) : Bool :=
  checksRunUnlockedFrom (0, false) tr

/-! Helper lemmas. -/

theorem failures_eq_nil_iff (outcomes : List (Nat × Option GoErr)) :
    outcomes.filterMap (fun p => p.2.map (fun e => (p.1, e))) = [] ↔
      ∀ p ∈ outcomes, p.2 = none := by
  rw [List.filterMap_eq_nil_iff]
  constructor
  · intro h p hp
    exact Option.map_eq_none'.mp (h p hp)
  · intro h p hp
    rw [h p hp]
    rfl

theorem egWait_eq_none_iff (outcomes : List (Nat × Option GoErr)) :
    egWait outcomes = none ↔ ∀ p ∈ outcomes, p.2 = none := by
  rcases hf : outcomes.filterMap (fun p => p.2.map (fun e => (p.1, e))) with _ | ⟨f, fs⟩
  · simp only [egWait, hf, egWaitAux]
    exact iff_of_true trivial ((failures_eq_nil_iff outcomes).mp hf)
  · simp only [egWait, hf, egWaitAux]
    constructor
    · intro h0
      cases h0
    · intro hall
      have h0 : (f :: fs : List (Nat × GoErr)) = [] := by
        rw [← hf]
        exact (failures_eq_nil_iff outcomes).mpr hall
      cases h0

theorem firstFailure_snd (x : GoErr) (fs : List (Nat × GoErr)) :
    ∀ f : Nat × GoErr, f.2 = x → (∀ p ∈ fs, p.2 = x) → (firstFailure f fs).2 = x := by
  induction fs with
  | nil => intro f hf _; exact hf
  | cons p tl ih =>
    intro f hf hall
    show (firstFailure (if p.1 < f.1 then p else f) tl).2 = x
    apply ih
    · by_cases h : p.1 < f.1
      · rw [if_pos h]
        exact hall p (List.mem_cons_self _ _)
      · rw [if_neg h]
        exact hf
    · intro q hq
      exact hall q (List.mem_cons_of_mem _ hq)

theorem egWait_all_deadline (outcomes : List (Nat × Option GoErr))
    (hne : ∃ p ∈ outcomes, p.2.isSome = true)
    (hdl : ∀ p ∈ outcomes, p.2 = none ∨ p.2 = some GoErr.deadlineExceeded) :
    egWait outcomes = some GoErr.deadlineExceeded := by
  rcases hf : outcomes.filterMap (fun p => p.2.map (fun e => (p.1, e))) with _ | ⟨f, fs⟩
  · exfalso
    obtain ⟨p, hp, hsome⟩ := hne
    rw [(failures_eq_nil_iff outcomes).mp hf p hp] at hsome
    cases hsome
  · have hmem : ∀ q ∈ (f :: fs : List (Nat × GoErr)), q.2 = GoErr.deadlineExceeded := by
      intro q hq
      have hq2 : q ∈ outcomes.filterMap (fun p => p.2.map (fun e => (p.1, e))) := hf ▸ hq
      rw [List.mem_filterMap] at hq2
      obtain ⟨p, hp, hpq⟩ := hq2
      rcases hdl p hp with h0 | h0
      · rw [h0] at hpq
        cases hpq
      · rw [h0] at hpq
        simp only [Option.map_some'] at hpq
        injection hpq with h1
        rw [← h1]
    simp only [egWait, hf, egWaitAux]
    rw [firstFailure_snd GoErr.deadlineExceeded fs f (hmem f (List.mem_cons_self _ _))
      (fun p hp => hmem p (List.mem_cons_of_mem _ hp))]

theorem foldl_applyOption_checks (opts : List HOption) :
    ∀ h : Handler, (opts.foldl applyOption h).checks = h.checks := by
  induction opts with
  | nil => intro h; rfl
  | cons o tl ih =>
    intro h
    rw [List.foldl_cons, ih]
    cases o <;> rfl

theorem new_checks (opts : List HOption) : (new opts).checks = [] := by
  show (opts.foldl applyOption _).checks = []
  rw [foldl_applyOption_checks]

theorem new_routes (opts : List HOption) :
    (new opts).routes = [(livePath, Route.live), (readyPath, Route.ready)] := rfl

theorem addChecks_routes (cs : List CheckSpec) :
    ∀ h : Handler, (addChecks h cs).routes = h.routes := by
  induction cs with
  | nil => intro h; rfl
  | cons c tl ih =>
    intro h
    show (addChecks (addCheck h c) tl).routes = h.routes
    rw [ih]
    rfl

theorem addChecks_infoPayload (cs : List CheckSpec) :
    ∀ h : Handler, (addChecks h cs).infoPayload = h.infoPayload := by
  induction cs with
  | nil => intro h; rfl
  | cons c tl ih =>
    intro h
    show (addChecks (addCheck h c) tl).infoPayload = h.infoPayload
    rw [ih]
    rfl

theorem hasKey_insertKV_self (k : String) (v : Json) :
    ∀ m : List (String × Json), hasKey (insertKV m k v) k = true := by
  intro m
  induction m with
  | nil => simp [insertKV, hasKey]
  | cons p tl ih =>
    rcases p with ⟨k2, v2⟩
    by_cases h : k2 = k
    · simp [insertKV, h, hasKey]
    · simp only [insertKV, if_neg h, hasKey]
      rw [ih]
      simp

theorem hasKey_insertKV_ne (k k2 : String) (v : Json) (hne : k ≠ k2) :
    ∀ m : List (String × Json), hasKey (insertKV m k2 v) k = hasKey m k := by
  intro m
  induction m with
  | nil =>
    simp only [insertKV, hasKey]
    simp [Ne.symm hne]
  | cons p tl ih =>
    rcases p with ⟨k3, v3⟩
    by_cases h : k3 = k2
    · simp only [insertKV, if_pos h, hasKey]
      rw [h]
    · simp only [insertKV, if_neg h, hasKey]
      rw [ih]

theorem no_append_inside (tr : List LockEv) :
    ∀ (xs ys : List LockEv) (r : Nat),
      (∀ e ∈ xs, e = LockEv.runlock ∨ ∃ i, e = LockEv.runCheckEv i) →
      (∀ e ∈ ys, e = LockEv.wlock ∨ e = LockEv.append ∨ e = LockEv.wunlock) →
      Interleave xs ys tr →
      (runTrace (r + 1, false) tr).isSome = true →
      appendAfterRlock tr = false := by
  induction tr with
  | nil =>
    intro xs ys r _ _ _ _
    rfl
  | cons e tl ih =>
    intro xs ys r hx hy hint hvalid
    cases hint with
    | left h2 =>
      rcases hx e (List.mem_cons_self _ _) with he | ⟨i, he⟩
      · subst he
        rfl
      · subst he
        have hvalid2 : (runTrace (r + 1, false) tl).isSome = true := by
          simpa [runTrace, lockStep] using hvalid
        have h3 : appendAfterRlock tl = false :=
          ih _ ys r (fun e2 h2m => hx e2 (List.mem_cons_of_mem _ h2m)) hy h2 hvalid2
        simpa [appendAfterRlock] using h3
    | right h2 =>
      rcases hy e (List.mem_cons_self _ _) with he | he | he <;> subst he <;>
        simp [runTrace, lockStep] at hvalid

theorem no_append_before (tr : List LockEv) :
    ∀ (rest ys : List LockEv) (w : Bool),
      (∀ e ∈ rest, e = LockEv.runlock ∨ ∃ i, e = LockEv.runCheckEv i) →
      (∀ e ∈ ys, e = LockEv.wlock ∨ e = LockEv.append ∨ e = LockEv.wunlock) →
      Interleave (LockEv.rlock :: rest) ys tr →
      (runTrace (0, w) tr).isSome = true →
      appendDuringEval tr = false := by
  induction tr with
  | nil =>
    intro rest ys w _ _ hint _
    cases hint
  | cons e tl ih =>
    intro rest ys w hrest hy hint hvalid
    cases hint with
    | left h2 =>
      cases w with
      | true => simp [runTrace, lockStep] at hvalid
      | false =>
        have hvalid2 : (runTrace (0 + 1, false) tl).isSome = true := by
          simpa [runTrace, lockStep] using hvalid
        have h3 : appendAfterRlock tl = false :=
          no_append_inside tl rest ys 0 hrest hy h2 hvalid2
        simpa [appendDuringEval] using h3
    | right h2 =>
      rcases hy e (List.mem_cons_self _ _) with he | he | he
      · subst he
        cases w with
        | true => simp [runTrace, lockStep] at hvalid
        | false =>
          have hvalid2 : (runTrace (0, true) tl).isSome = true := by
            simpa [runTrace, lockStep] using hvalid
          have h3 := ih rest _ true hrest (fun e2 hm => hy e2 (List.mem_cons_of_mem _ hm)) h2 hvalid2
          simpa [appendDuringEval] using h3
      · subst he
        cases w with
        | false => simp [runTrace, lockStep] at hvalid
        | true =>
          have hvalid2 : (runTrace (0, true) tl).isSome = true := by
            simpa [runTrace, lockStep] using hvalid
          have h3 := ih rest _ true hrest (fun e2 hm => hy e2 (List.mem_cons_of_mem _ hm)) h2 hvalid2
          simpa [appendDuringEval] using h3
      · subst he
        cases w with
        | false => simp [runTrace, lockStep] at hvalid
        | true =>
          have hvalid2 : (runTrace (0, false) tl).isSome = true := by
            simpa [runTrace, lockStep] using hvalid
          have h3 := ih rest _ false hrest (fun e2 hm => hy e2 (List.mem_cons_of_mem _ hm)) h2 hvalid2
          simpa [appendDuringEval] using h3

theorem evalTrace_rest_ok (n : Nat) :
    ∀ e ∈ (List.range n).map LockEv.runCheckEv ++ [LockEv.runlock],
      e = LockEv.runlock ∨ ∃ i, e = LockEv.runCheckEv i := by
  intro e he
  rcases List.mem_append.mp he with h1 | h1
  · right
    rcases List.mem_map.mp h1 with ⟨i, _, hi⟩
    exact ⟨i, hi.symm⟩
  · left
    simpa using h1

theorem addCheckTrace_ok :
    ∀ e ∈ addCheckTrace,
      e = LockEv.wlock ∨ e = LockEv.append ∨ e = LockEv.wunlock := by
  intro e he
  simp only [addCheckTrace, List.mem_cons, List.not_mem_nil, or_false] at he
  exact he

theorem errorsIs_self (t : GoErr) : errorsIs t t = true := by
  cases t <;> simp [errorsIs]

theorem errorsIs_wrapf (e t : GoErr) (s : String) (h : errorsIs e t = true) :
    errorsIs (GoErr.wrapf e s) t = true := by
  simp [errorsIs, h]

theorem lookupRoute_head (p : String) (r : Route) (tl : List (String × Route)) :
    lookupRoute ((p, r) :: tl) p = some r := by
  simp [lookupRoute]

theorem lookupRoute_ne (p q : String) (r : Route) (tl : List (String × Route)) (h : p ≠ q) :
    lookupRoute ((p, r) :: tl) q = lookupRoute tl q := by
  simp [lookupRoute, h]

theorem enableInfo_routes (h : Handler) (d : List (String × Json)) (bi : Option BuildInfo) :
    (enableInfo h d bi).routes = h.routes ++ [(infoPath, Route.info)] := by
  cases bi <;> rfl

theorem executeReadyChecks_ran (h : Handler) (ctx : Ctx) (now : Nat) :
    (executeReadyChecks h ctx now).ran = h.checks := by
  unfold executeReadyChecks
  cases egWait (h.checks.map (runCheck (boundedCtx h ctx now) now)) <;> rfl

theorem executeReadyChecks_err (h : Handler) (ctx : Ctx) (now : Nat) :
    (executeReadyChecks h ctx now).err
      = egWait (h.checks.map (runCheck (boundedCtx h ctx now) now)) := by
  unfold executeReadyChecks
  cases hw : egWait (h.checks.map (runCheck (boundedCtx h ctx now) now)) <;> rfl

theorem executeReadyChecks_logged (h : Handler) (ctx : Ctx) (now : Nat) :
    (executeReadyChecks h ctx now).logged
      = (match (executeReadyChecks h ctx now).err with
         | some e => if h.hasErrorLogger then [e] else []
         | none => []) := by
  unfold executeReadyChecks
  cases hw : egWait (h.checks.map (runCheck (boundedCtx h ctx now) now)) <;> rfl

theorem runCheck_result_of_none (ctx : Ctx) (now : Nat) (c : CheckSpec)
    (h0 : (runCheck ctx now c).2 = none) : c.result = none := by
  rcases ctx with ⟨_ | d⟩
  · simpa [runCheck] using h0
  · by_cases hlt : d < now + c.dur
    · simp [runCheck, hlt] at h0
    · simpa [runCheck, hlt] using h0

theorem runCheck_deadline_lt (ctx : Ctx) (now : Nat) (c : CheckSpec) (d : Nat)
    (hd : ctx.deadline = some d) (hlt : d < now + c.dur) :
    runCheck ctx now c = (d, some GoErr.deadlineExceeded) := by
  rcases ctx with ⟨dl⟩
  cases hd
  simp [runCheck, hlt]

theorem runCheck_within (ctx : Ctx) (now : Nat) (c : CheckSpec) (d : Nat)
    (hd : ctx.deadline = some d) (hle : now + c.dur ≤ d) :
    runCheck ctx now c = (now + c.dur, c.result) := by
  rcases ctx with ⟨dl⟩
  cases hd
  simp [runCheck, Nat.not_lt.mpr hle]

theorem enableInfo_infoPayload (h : Handler) (d : List (String × Json)) (bi : BuildInfo) :
    (enableInfo h d (some bi)).infoPayload =
      some (Json.obj (insertKV (insertKV d "version" (Json.str bi.version)) "build_settings"
        (Json.obj (bi.settings.foldl (fun m s => insertKV m s.1 (Json.str s.2)) [])))) := rfl

/-!
Claim theorems.
-/

/-- C7: the check registry is an ordered sequence that starts empty at
handler construction (New) and only grows: AddCheck and AddCheckFunc
each append exactly one check at the end, keeping every previously
registered check at its position, and the only other state-changing
operation, EnableInfo, leaves the registry untouched (request handling
never mutates the Handler in the model, so no operation removes a
check). -/
theorem registry_append_only :
    (∀ opts : List HOption, (new opts).checks = []) ∧
    (∀ (h : Handler) (c : CheckSpec), (addCheck h c).checks = h.checks ++ [c]) ∧
    (∀ (h : Handler) (c : CheckSpec), (addCheckFunc h c).checks = h.checks ++ [c]) ∧
    (∀ (h : Handler) (c : CheckSpec),
        (addCheck h c).checks.take h.checks.length = h.checks) ∧
    (∀ (h : Handler) (infoData : List (String × Json)) (bi : Option BuildInfo),
        (enableInfo h infoData bi).checks = h.checks) := by
  refine ⟨new_checks, fun h c => rfl, fun h c => rfl, ?_, fun h d bi => rfl⟩
  intro h c
  show (h.checks ++ [c]).take h.checks.length = h.checks
  exact List.take_left h.checks [c]

/-- C8: the ping check fails exactly when the wrapped PingContext call
errors; on failure the returned error has the distinguishing
ErrPingCheckFailed kind in its unwrap chain and its message carries the
underlying cause's message. -/
theorem checkPing_spec (e : GoErr) :
    checkPing none = none ∧
    checkPing (some e) = some (GoErr.wrapf ErrPingCheckFailed (": " ++ e.msg)) ∧
    errorsIs (GoErr.wrapf ErrPingCheckFailed (": " ++ e.msg)) ErrPingCheckFailed = true ∧
    (GoErr.wrapf ErrPingCheckFailed (": " ++ e.msg)).msg =
      ErrPingCheckFailed.msg ++ ": " ++ e.msg := by
  refine ⟨rfl, rfl, errorsIs_wrapf _ _ _ (errorsIs_self _), ?_⟩
  show ErrPingCheckFailed.msg ++ (": " ++ e.msg) = ErrPingCheckFailed.msg ++ ": " ++ e.msg
  rw [String.append_assoc]

/-- C9: every request to the liveness route answers 204 No Content with
no ErrorLogger invocation and without executing a single registered
check, whatever checks were registered and whether the info endpoint
was enabled. -/
theorem liveness_always_204 (opts : List HOption) (cs : List CheckSpec)
    (infoData : List (String × Json)) (bi : Option BuildInfo)
    (m : String) (ctx : Ctx) (now : Nat) :
    serveHTTP (addChecks (new opts) cs) m livePath ctx now = (⟨204, none⟩, [], []) ∧
    serveHTTP (enableInfo (addChecks (new opts) cs) infoData bi) m livePath ctx now
      = (⟨204, none⟩, [], []) := by
  have hr : (addChecks (new opts) cs).routes
      = [(livePath, Route.live), (readyPath, Route.ready)] := by
    rw [addChecks_routes, new_routes]
  have h1 : lookupRoute (addChecks (new opts) cs).routes livePath = some Route.live := by
    rw [hr]
    exact lookupRoute_head _ _ _
  have h2 : lookupRoute (enableInfo (addChecks (new opts) cs) infoData bi).routes livePath
      = some Route.live := by
    rw [enableInfo_routes, hr]
    exact lookupRoute_head _ _ _
  constructor
  · simp [serveHTTP, h1, handleLive]
  · simp [serveHTTP, h2, handleLive]

/-- C10: the liveness and readyness routes carry no HTTP method
restriction: dispatch gives every method the same response as any
other, a request with any method to the liveness path answers 204, and
one to the readyness path triggers the full readyness evaluation with
the 204/503 outcome. -/
theorem routes_ignore_method (h : Handler) (m m2 path : String) (ctx : Ctx) (now : Nat)
    (opts : List HOption) (cs : List CheckSpec) :
    serveHTTP h m path ctx now = serveHTTP h m2 path ctx now ∧
    (serveHTTP (addChecks (new opts) cs) m livePath ctx now).1.status = 204 ∧
    (serveHTTP (addChecks (new opts) cs) m readyPath ctx now).1.status =
      (if (executeReadyChecks (addChecks (new opts) cs) ctx now).err.isSome
       then 503 else 204) ∧
    (serveHTTP (addChecks (new opts) cs) m readyPath ctx now).2.2 =
      (addChecks (new opts) cs).checks := by
  have hr : (addChecks (new opts) cs).routes
      = [(livePath, Route.live), (readyPath, Route.ready)] := by
    rw [addChecks_routes, new_routes]
  have h1 : lookupRoute (addChecks (new opts) cs).routes livePath = some Route.live := by
    rw [hr]
    exact lookupRoute_head _ _ _
  have h2 : lookupRoute (addChecks (new opts) cs).routes readyPath = some Route.ready := by
    rw [hr, lookupRoute_ne _ _ _ _ (by decide)]
    exact lookupRoute_head _ _ _
  refine ⟨?_, ?_, ?_, ?_⟩
  · cases hl : lookupRoute h.routes path with
    | none => simp [serveHTTP, hl]
    | some r => cases r <;> simp [serveHTTP, hl]
  · simp [serveHTTP, h1, handleLive]
  · simp [serveHTTP, h2, handleReady]
  · simp [serveHTTP, h2, handleReady, executeReadyChecks_ran]

/-- C5: for every method and URL, the check built by CheckHTTPResponse
succeeds exactly when the request could be built, the call succeeded
and the response status is strictly below 400; in every other case
(construction failure, call error, status at least 400) the result is a
failure whose unwrap chain carries the single ErrURLCheckFailed
category; CheckURL is the GET instance of the same check. -/
theorem checkHTTPResponse_spec (method url : String) (env : HttpEnv) :
    (checkHTTPResponse method url env = none ↔
       env.newRequest = none ∧ ∃ res, env.doResult = Except.ok res ∧ res.statusCode < 400) ∧
    errorsIsOpt (checkHTTPResponse method url env) ErrURLCheckFailed = true ∧
    checkURL url env = checkHTTPResponse "GET" url env := by
  obtain ⟨nr, dr⟩ := env
  refine ⟨?_, ?_, rfl⟩
  · cases nr with
    | some err => simp [checkHTTPResponse]
    | none =>
      cases dr with
      | error e => simp [checkHTTPResponse]
      | ok res =>
        by_cases hs : res.statusCode ≥ 400
        · simp only [checkHTTPResponse, if_pos hs]
          constructor
          · intro h0
            cases h0
          · rintro ⟨-, r, hr, hlt⟩
            injection hr with hr
            subst hr
            omega
        · constructor
          · intro _
            exact ⟨rfl, res, rfl, by omega⟩
          · intro _
            simp [checkHTTPResponse, if_neg hs]
  · cases nr with
    | some err => exact errorsIs_wrapf _ _ _ (errorsIs_self _)
    | none =>
      cases dr with
      | error e => exact errorsIs_wrapf _ _ _ (errorsIs_self _)
      | ok res =>
        by_cases hs : res.statusCode ≥ 400
        · simp only [errorsIsOpt, checkHTTPResponse, if_pos hs]
          exact errorsIs_wrapf _ _ _ (errorsIs_self _)
        · simp only [errorsIsOpt, checkHTTPResponse, if_neg hs]

/-- C6: before EnableInfo is called an info request answers 404 Not
Found; after EnableInfo (with build metadata available) every info
request answers 200 OK with exactly the payload stored at enable time,
that payload is a JSON object carrying at least the keys version and
build_settings, and the body does not depend on the request, so it is
never recomputed. -/
theorem infoEndpoint_spec (opts : List HOption) (cs : List CheckSpec)
    (infoData : List (String × Json)) (bi : BuildInfo)
    (m m2 : String) (ctx ctx2 : Ctx) (now now2 : Nat) :
    (serveHTTP (addChecks (new opts) cs) m infoPath ctx now).1.status = 404 ∧
    (serveHTTP (enableInfo (addChecks (new opts) cs) infoData (some bi)) m infoPath ctx now).1.status
      = 200 ∧
    (serveHTTP (enableInfo (addChecks (new opts) cs) infoData (some bi)) m infoPath ctx now).1.body
      = (enableInfo (addChecks (new opts) cs) infoData (some bi)).infoPayload ∧
    (∃ fields,
        (enableInfo (addChecks (new opts) cs) infoData (some bi)).infoPayload
          = some (Json.obj fields) ∧
        hasKey fields "version" = true ∧ hasKey fields "build_settings" = true) ∧
    (serveHTTP (enableInfo (addChecks (new opts) cs) infoData (some bi)) m infoPath ctx now).1.body
      = (serveHTTP (enableInfo (addChecks (new opts) cs) infoData (some bi)) m2 infoPath ctx2 now2).1.body := by
  have hr : (addChecks (new opts) cs).routes
      = [(livePath, Route.live), (readyPath, Route.ready)] := by
    rw [addChecks_routes, new_routes]
  have h1 : lookupRoute (addChecks (new opts) cs).routes infoPath = none := by
    rw [hr, lookupRoute_ne _ _ _ _ (by decide), lookupRoute_ne _ _ _ _ (by decide)]
    rfl
  have h2 : lookupRoute (enableInfo (addChecks (new opts) cs) infoData (some bi)).routes infoPath
      = some Route.info := by
    rw [enableInfo_routes, hr]
    show lookupRoute [(livePath, Route.live), (readyPath, Route.ready), (infoPath, Route.info)]
      infoPath = some Route.info
    rw [lookupRoute_ne _ _ _ _ (by decide), lookupRoute_ne _ _ _ _ (by decide)]
    exact lookupRoute_head _ _ _
  refine ⟨?_, ?_, ?_, ?_, ?_⟩
  · simp [serveHTTP, h1]
  · simp [serveHTTP, h2, handleInfo]
  · simp [serveHTTP, h2, handleInfo]
  · refine ⟨_, enableInfo_infoPayload _ _ _, ?_, hasKey_insertKV_self _ _ _⟩
    rw [hasKey_insertKV_ne _ _ _ (by decide)]
    exact hasKey_insertKV_self _ _ _
  · simp [serveHTTP, h2, handleInfo]

/-- C3: the readyness evaluation succeeds exactly when none of the
launched checks fails: an empty registry gives success for every
configured timeout, and a registry whose checks all return success
gives success. -/
theorem executeReadyChecks_success_iff (h : Handler) (ctx : Ctx) (now : Nat) :
    ((executeReadyChecks h ctx now).err = none ↔
       ∀ c ∈ h.checks, (runCheck (boundedCtx h ctx now) now c).2 = none) ∧
    (h.checks = [] → (executeReadyChecks h ctx now).err = none) := by
  constructor
  · rw [executeReadyChecks_err, egWait_eq_none_iff]
    constructor
    · intro hall c hc
      exact hall _ (List.mem_map_of_mem _ hc)
    · intro hall p hp
      rcases List.mem_map.mp hp with ⟨c, hc, hpc⟩
      rw [← hpc]
      exact hall c hc
  · intro h0
    rw [executeReadyChecks_err, h0]
    rfl

/-- C3 witness: a freshly constructed handler with no checks evaluates
to success. -/
theorem executeReadyChecks_success_iff_witness :
    (executeReadyChecks (new []) ⟨none⟩ 0).err = none :=
  (executeReadyChecks_success_iff (new []) ⟨none⟩ 0).2 rfl

/-- C2: whenever the registry contains a failing check, the readyness
evaluation returns a failure and, when an ErrorLogger is configured,
invokes it exactly once with that same aggregated failure; the logger
is never invoked when the evaluation succeeds. -/
theorem executeReadyChecks_failure_logging (h : Handler) (ctx : Ctx) (now : Nat) :
    ((∃ c ∈ h.checks, c.result.isSome = true) →
       ∃ e, (executeReadyChecks h ctx now).err = some e ∧
         (executeReadyChecks h ctx now).logged
           = (if h.hasErrorLogger then [e] else [])) ∧
    ((executeReadyChecks h ctx now).err = none →
       (executeReadyChecks h ctx now).logged = []) := by
  constructor
  · rintro ⟨c, hc, hres⟩
    have hfail : ¬ (executeReadyChecks h ctx now).err = none := by
      rw [executeReadyChecks_err, egWait_eq_none_iff]
      intro hall
      have h0 := hall _ (List.mem_map_of_mem (runCheck (boundedCtx h ctx now) now) hc)
      rw [runCheck_result_of_none _ _ _ h0] at hres
      cases hres
    rcases he : (executeReadyChecks h ctx now).err with _ | e
    · exact absurd he hfail
    · refine ⟨e, rfl, ?_⟩
      rw [executeReadyChecks_logged, he]
  · intro he
    rw [executeReadyChecks_logged, he]

/-- C2 witness: one immediately failing check makes the evaluation fail
and the configured logger is invoked exactly once with that failure. -/
theorem executeReadyChecks_failure_logging_witness :
    (executeReadyChecks ⟨true, 0, [⟨0, some (GoErr.new "boom")⟩], [], none⟩ ⟨none⟩ 0).err
        = some (GoErr.new "boom") ∧
    (executeReadyChecks ⟨true, 0, [⟨0, some (GoErr.new "boom")⟩], [], none⟩ ⟨none⟩ 0).logged
        = [GoErr.new "boom"] := by
  obtain ⟨e, he, hl⟩ :=
    (executeReadyChecks_failure_logging ⟨true, 0, [⟨0, some (GoErr.new "boom")⟩], [], none⟩
        ⟨none⟩ 0).1
      ⟨⟨0, some (GoErr.new "boom")⟩, List.mem_cons_self _ _, rfl⟩
  have hcomp :
      (executeReadyChecks ⟨true, 0, [⟨0, some (GoErr.new "boom")⟩], [], none⟩ ⟨none⟩ 0).err
        = some (GoErr.new "boom") := by decide
  rw [hcomp] at he
  injection he with he
  subst he
  exact ⟨hcomp, hl⟩

/-- C1: with a positive configured readyness timeout (default 10
seconds) the checks run under a child context whose deadline is the
minimum of the caller deadline and now plus the timeout; when that
bounded deadline expires before some check completes while every check
completing within it succeeds, the evaluation returns the
deadline-exceeded failure. -/
theorem executeReadyChecks_timeout (h : Handler) (ctx : Ctx) (now d : Nat)
    (hpos : 0 < h.ReadynessTimeout)
    (hd : (boundedCtx h ctx now).deadline = some d)
    (hexpire : ∃ c ∈ h.checks, d < now + c.dur)
    (hnofail : ∀ c ∈ h.checks, now + c.dur ≤ d → c.result = none) :
    boundedCtx h ctx now = ctx.withTimeout now h.ReadynessTimeout ∧
    d = min (ctx.deadline.getD (now + h.ReadynessTimeout)) (now + h.ReadynessTimeout) ∧
    (new []).ReadynessTimeout = 10 ∧
    (executeReadyChecks h ctx now).err = some GoErr.deadlineExceeded := by
  have hb : boundedCtx h ctx now = ctx.withTimeout now h.ReadynessTimeout := by
    unfold boundedCtx
    rw [if_pos hpos]
  refine ⟨hb, ?_, rfl, ?_⟩
  · rw [hb] at hd
    rcases ctx with ⟨_ | d0⟩
    · simp only [Ctx.withTimeout] at hd
      injection hd with hd
      simp [← hd]
    · simp only [Ctx.withTimeout] at hd
      injection hd with hd
      simp [← hd]
  · rw [executeReadyChecks_err]
    apply egWait_all_deadline
    · obtain ⟨c, hc, hlt⟩ := hexpire
      refine ⟨runCheck (boundedCtx h ctx now) now c, List.mem_map_of_mem _ hc, ?_⟩
      rw [runCheck_deadline_lt _ _ _ d hd hlt]
      rfl
    · intro p hp
      rcases List.mem_map.mp hp with ⟨c, hc, hpc⟩
      by_cases hlt : d < now + c.dur
      · right
        rw [← hpc, runCheck_deadline_lt _ _ _ d hd hlt]
      · left
        rw [← hpc, runCheck_within _ _ _ d hd (Nat.not_lt.mp hlt)]
        exact hnofail c hc (Nat.not_lt.mp hlt)

/-- C1 witness: timeout 1, a single successful check needing 5 units,
no caller deadline: the evaluation fails with deadline exceeded. -/
theorem executeReadyChecks_timeout_witness :
    (executeReadyChecks ⟨false, 1, [⟨5, none⟩], [], none⟩ ⟨none⟩ 0).err
      = some GoErr.deadlineExceeded :=
  (executeReadyChecks_timeout ⟨false, 1, [⟨5, none⟩], [], none⟩ ⟨none⟩ 0 1 (by decide) rfl
    ⟨⟨5, none⟩, List.mem_cons_self _ _, by decide⟩ (by decide)).2.2.2

/-- C4 (amended): ExecuteReadyChecks holds the registry's read lock for
its whole duration, so under the RWMutex semantics no concurrent
AddCheck can append to the registry between the evaluation's RLock and
RUnlock: in every valid interleaving the append lands before the
evaluation takes the lock or after it releases it.  Concurrent
registration is therefore blocked until the evaluation completes (it
does not block indefinitely only as long as every check terminates) and
can neither corrupt the evaluation nor change the set of checks the
evaluation runs. -/
theorem addCheck_excluded_during_eval (n : Nat) (tr : List LockEv)
    (hint : Interleave (evalTrace n) addCheckTrace tr)
    (hvalid : validTrace tr = true) :
    appendDuringEval tr = false :=
  no_append_before tr _ _ false (evalTrace_rest_ok n) addCheckTrace_ok hint hvalid

/-- C4 witness: the interleaving that runs AddCheck to completion
before the evaluation takes the read lock is valid and keeps the append
outside the evaluation's locked span. -/
theorem addCheck_excluded_during_eval_witness :
    appendDuringEval (addCheckTrace ++ evalTrace 1) = false :=
  addCheck_excluded_during_eval 1 (addCheckTrace ++ evalTrace 1)
    (Interleave.right (Interleave.right (Interleave.right
      (Interleave.left (Interleave.left (Interleave.left Interleave.nil))))))
    (by decide)

/-- C4 counterexample: the claim that the evaluation iterates a
snapshot without holding a lock for the duration of execution fails on
the code: already with one registered check, the check runs while the
evaluation holds the read lock (RUnlock is deferred past eg.Wait). -/
theorem eval_holds_lock_counterexample :
    checksRunUnlocked (evalTrace 1) = false := by decide

end Healthcheck
